import Mathlib

set_option maxHeartbeats 1000000

/-!
Shallow embedding of the resource discovery engine of
`src/monolithe/lib/parsers.py` (classes `AbstractSwaggerParser`,
`SwaggerURLParser`, `SwaggerFileParser`), together with proofs of the
specification's claims about it.

JSON values (the results of `json.load` and `response.json()`) are modelled
by `JValue`; Python dictionaries by association lists with unique keys kept
in insertion order; fallible Python operations (subscripting, iteration,
membership tests) by `Except String`.  `deepcopy` is the identity on these
immutable values.  `Printer.raiseError`, `TaskManager` and
`Utils.get_version` live in repository files that are not part of the
sources at hand; where needed they are modelled from the spec, as noted on
each definition.
-/

/-- JSON values as produced by `json.load` / `response.json()`. -/
inductive JValue where
  | jnull : JValue
  | jbool : Bool → JValue
  | jnum : Int → JValue
  | jstr : String → JValue
  | jarr : List JValue → JValue
  | jobj : List (String × JValue) → JValue

/-- Python dictionary read: the binding of the first (and only) occurrence
of the key. -/
def dictGet (m : List (String × JValue)) (k : String) : Option JValue :=
  match m with
  | [] => none
  | (k0, v0) :: rest => if k0 = k then some v0 else dictGet rest k

/-- Python dictionary assignment `d[k] = v`: replaces the value in place if
the key is present, otherwise appends the new binding. -/
def dictSet (m : List (String × JValue)) (k : String) (v : JValue) : List (String × JValue) :=
  match m with
  | [] => [(k, v)]
  | (k0, v0) :: rest => if k0 = k then (k, v) :: rest else (k0, v0) :: dictSet rest k v

/-- How many bindings of a key a map holds (a well-formed dict holds at
most one). -/
def countKey (m : List (String × JValue)) (k : String) : Nat :=
  match m with
  | [] => 0
  | (k0, _) :: rest => if k0 = k then countKey rest k + 1 else countKey rest k

/-- Python subscript `j[k]` for a string key: `KeyError` when the key is
absent from a dict, `TypeError` when the value is not a dict. -/
def JValue.getField (j : JValue) (k : String) : Except String JValue :=
  match j with
  | .jobj m =>
    match dictGet m k with
    | some v => .ok v
    | none => .error ("KeyError: " ++ k)
  | _ => .error ("TypeError: value is not subscriptable with key " ++ k)

/-- Python subscript assignment `j[k] = v`: only dicts support item
assignment with a string key. -/
def JValue.setField (j : JValue) (k : String) (v : JValue) : Except String JValue :=
  match j with
  | .jobj m => .ok (.jobj (dictSet m k v))
  | _ => .error ("TypeError: value does not support item assignment at key " ++ k)

/-- Python iteration `for x in j`: arrays yield their elements, strings
yield their characters as one-character strings, dicts yield their keys;
every other value raises `TypeError`. -/
def pyIter (j : JValue) : Except String (List JValue) :=
  match j with
  | .jarr l => .ok l
  | .jstr s => .ok (s.data.map fun c => .jstr (String.mk [c]))
  | .jobj m => .ok (m.map fun p => JValue.jstr p.1)
  | _ => .error "TypeError: value is not iterable"

/-- Boolean test that one character list starts with another. -/
def listStartsWith : List Char → List Char → Bool
  | [], _ => true
  | _ :: _, [] => false
  | a :: as, b :: bs => a == b && listStartsWith as bs

/-- Boolean test that `needle` occurs as a contiguous run inside `hay`. -/
def listContainsSub (needle : List Char) : List Char → Bool
  | [] => listStartsWith needle []
  | c :: cs => listStartsWith needle (c :: cs) || listContainsSub needle cs

/-- Python substring test `needle in hay` on strings. -/
def pyStrContains (hay needle : String) : Bool :=
  listContainsSub needle.data hay.data

/-- Python membership test `needle in v` for a string needle: substring
test on strings, element membership on arrays, key membership on dicts,
`TypeError` otherwise. -/
def pyContains (needle : String) (v : JValue) : Except String Bool :=
  match v with
  | .jstr s => .ok (pyStrContains s needle)
  | .jarr l => .ok (l.any fun x => match x with | .jstr t => t == needle | _ => false)
  | .jobj m => .ok (m.any fun p => p.1 == needle)
  | _ => .error "TypeError: argument is not iterable"

/-- Drop `sep` from the front of a character list if it starts with it. -/
def dropPieceFront : List Char → List Char → Option (List Char)
  | [], l => some l
  | _ :: _, [] => none
  | s :: ss, c :: cs => if s = c then dropPieceFront ss cs else none

/-- Worker for Python `str.split(sep)` with a nonempty separator: scans the
text left to right, cutting at each non-overlapping occurrence of the
separator.  The fuel argument (instantiated with the text length, which
strictly bounds the number of scan steps) only makes the recursion
structural. -/
def pySplitGo (sep : List Char) : Nat → List Char → List Char → List (List Char)
  | _, cur, [] => [cur.reverse]
  | 0, cur, rest => [cur.reverse ++ rest]
  | fuel + 1, cur, c :: cs =>
    match dropPieceFront sep (c :: cs) with
    | some rest => cur.reverse :: pySplitGo sep fuel [] rest
    | none => pySplitGo sep fuel (c :: cur) cs

/-- Python `s.split(sep)`: `ValueError` on an empty separator. -/
def pySplit (s sep : String) : Except String (List String) :=
  if sep.data = [] then .error "ValueError: empty separator"
  else .ok ((pySplitGo sep.data s.data.length [] s.data).map String.mk)

/-- Helper for `rsplit`: break a reversed character list at the first
slash, returning (characters before the slash, characters after). -/
def breakAtSlash : List Char → Option (List Char × List Char)
  | [] => none
  | c :: cs =>
    if c = '/' then some ([], cs)
    else
      match breakAtSlash cs with
      | some (a, b) => some (c :: a, b)
      | none => none

/-- Python `s.rsplit` with separator slash and maxsplit one: splits at the
last slash when there is one, otherwise returns the whole string. -/
def pyRsplitSlashOnce (s : String) : List String :=
  match breakAtSlash s.data.reverse with
  | none => [s]
  | some (afterRev, beforeRev) => [String.mk beforeRev.reverse, String.mk afterRev.reverse]

/-- Constant `ENTRY_POINT` of parsers.py. -/
def ENTRY_POINT : String := "/api-docs"

/-- Constant `SCHEMA_FILEPATH` of parsers.py. -/
def SCHEMA_FILEPATH : String := "/schema"

/-- The result map built by a discovery run (`models = dict()`),
a Python dictionary from resource name to resource document. -/
abbrev ResultsMap := List (String × JValue)

/-- The partition loop of `_grab_resource` (parsers.py lines 160-167): each
entry of the original `apis` list is routed by substring tests on its
`path` field, first to the aggregate list, else to the global list, else to
the metadata list; the `elif` evaluates the second test only when the first
failed.  Returns (aggregate, global, metadata) lists. -/
def splitApis : List JValue → Except String (List JValue × List JValue × List JValue)
  | [] => .ok ([], [], [])
  | api :: rest => do
    let pv ← api.getField "path"
    let isAgg ← pyContains "/aggregatemetadatas" pv
    if isAgg then
      let t ← splitApis rest
      .ok (api :: t.1, t.2.1, t.2.2)
    else do
      let isGlob ← pyContains "/globalmetadatas" pv
      let t ← splitApis rest
      if isGlob then .ok (t.1, api :: t.2.1, t.2.2)
      else .ok (t.1, t.2.1, api :: t.2.2)

/-- The nested assignment `doc['models']['Metadata']['id'] = name` of
parsers.py lines 156-158, as a functional update. -/
def setModelsMetadataId (j : JValue) (name : String) : Except String JValue := do
  let models ← j.getField "models"
  let md ← models.getField "Metadata"
  let md2 ← md.setField "id" (.jstr name)
  let models2 ← models.setField "Metadata" md2
  j.setField "models" models2

/-- Read back `doc['models']['Metadata']['id']`. -/
def getModelsMetadataId (j : JValue) : Except String JValue := do
  let models ← j.getField "models"
  let md ← models.getField "Metadata"
  md.getField "id"

/-- Body of `AbstractSwaggerParser._grab_resource` after the fetch
(parsers.py lines 144-179): the Metadata split when the resource name is
"Metadata", otherwise a single package-annotated insertion.  `deepcopy` is
the identity on immutable values, so the three copies start out as `infos`
itself; the loop's incremental appends are realised by installing the final
partitioned lists. -/
def grabResourceProcess (package resource_name : String) (infos : JValue)
    (results : ResultsMap) : Except String ResultsMap :=
  if resource_name = "Metadata" then do
    let mi1 ← infos.setField "apis" (.jarr [])
    let gi1 ← infos.setField "apis" (.jarr [])
    let ai1 ← infos.setField "apis" (.jarr [])
    let mi2 ← setModelsMetadataId mi1 "Metadata"
    let gi2 ← setModelsMetadataId gi1 "GlobalMetadata"
    let ai2 ← setModelsMetadataId ai1 "AggregateMetadata"
    let apisV ← infos.getField "apis"
    let apisL ← pyIter apisV
    let t ← splitApis apisL
    let mi3 ← mi2.setField "apis" (.jarr t.2.2)
    let gi3 ← gi2.setField "apis" (.jarr t.2.1)
    let ai3 ← ai2.setField "apis" (.jarr t.1)
    let mi4 ← mi3.setField "package" (.jstr package)
    let gi4 ← gi3.setField "package" (.jstr package)
    let ai4 ← ai3.setField "package" (.jstr package)
    .ok (dictSet (dictSet (dictSet results "Metadata" mi4) "GlobalMetadata" gi4)
          "AggregateMetadata" ai4)
  else do
    let infos2 ← infos.setField "package" (.jstr package)
    .ok (dictSet results resource_name infos2)

/-- `AbstractSwaggerParser._grab_resource`, parametric in the transport's
`get_information` and `get_swagger_model` capabilities. -/
def grabResource (getInfo : String → Except String (String × String))
    (fetch : String → String → Except String JValue)
    (path : String) (results : ResultsMap) : Except String ResultsMap := do
  let pr ← getInfo path
  let infos ← fetch path pr.2
  grabResourceProcess pr.1 pr.2 infos results

/-- State of a `SwaggerFileParser` after `__init__` (parsers.py lines
260-268): construction never fails and a missing apiversion is kept as
unconstrained. -/
structure SwaggerFileParserState where
  path : String
  apiversion : Option String
  extension : String
  schema_path : String

/-- `SwaggerFileParser.__init__`: total, no version requirement. -/
def SwaggerFileParser.init (path : String) (apiversion : Option String) :
    SwaggerFileParserState :=
  { path := path
    apiversion := apiversion
    extension := ""
    schema_path := path ++ ENTRY_POINT ++ "" }

/-- `SwaggerFileParser.path_for_swagger_model`: root path, then the
relative path, then the configured extension. -/
def SwaggerFileParser.path_for_swagger_model (st : SwaggerFileParserState)
    (swagger_filepath : String) : String :=
  st.path ++ swagger_filepath ++ st.extension

/-- `SwaggerFileParser.get_information`:
`path.split(self.path)[1].rsplit('/', 1)` unpacked into a pair;
indexing a too-short split or unpacking a one-element rsplit raises. -/
def SwaggerFileParser.get_information (st : SwaggerFileParserState)
    (path : String) : Except String (String × String) := do
  let pieces ← pySplit path st.path
  match pieces with
  | _ :: second :: _ =>
    match pyRsplitSlashOnce second with
    | [a, b] => .ok (a, b)
    | _ => .error "ValueError: not enough values to unpack"
  | _ => .error "IndexError: list index out of range"

/-- `str(apiversion).replace` of every dot by an underscore, as in
`SwaggerURLParser.__init__`. -/
def underscoreDots (s : String) : String :=
  String.mk (s.data.map fun c => if c = '.' then '_' else c)

/-- State of a `SwaggerURLParser` after a successful `__init__`. -/
structure SwaggerURLParserState where
  url : String
  apiversion : String
  base_path : String
  schema_url : String

/-- `SwaggerURLParser.__init__` (parsers.py lines 186-197): fails when no
apiversion is given, else builds `base_path = url + "V" + version-with-
underscores` and `schema_url = base_path + "/schema" + "/api-docs"`.
Modelled from the spec: `Printer.raiseError` (whose file is not among the
sources) aborts with the given message, here a `ConfigurationError`. -/
def SwaggerURLParser.init (url : String) (apiversion : Option String) :
    Except String SwaggerURLParserState :=
  match apiversion with
  | none => .error "Please specify your apiversion using -v option"
  | some v =>
    let bp := url ++ "V" ++ underscoreDots v
    .ok { url := url
          apiversion := v
          base_path := bp
          schema_url := bp ++ SCHEMA_FILEPATH ++ ENTRY_POINT }

/-- `SwaggerURLParser.path_for_swagger_model`. -/
def SwaggerURLParser.path_for_swagger_model (st : SwaggerURLParserState)
    (swagger_filepath : String) : String :=
  st.base_path ++ SCHEMA_FILEPATH ++ swagger_filepath

/-- `SwaggerURLParser.get_information`:
`path.split(SCHEMA_FILEPATH)[1].rsplit('/', 1)` unpacked into a pair. -/
def SwaggerURLParser.get_information (path : String) :
    Except String (String × String) := do
  let pieces ← pySplit path SCHEMA_FILEPATH
  match pieces with
  | _ :: second :: _ =>
    match pyRsplitSlashOnce second with
    | [a, b] => .ok (a, b)
    | _ => .error "ValueError: not enough values to unpack"
  | _ => .error "IndexError: list index out of range"

/-- An HTTP response: status code and parsed JSON body (the body is an
error when it is not valid JSON, as `response.json()` then raises). -/
structure HttpResponse where
  status : Nat
  body : Except String JValue

/-- `SwaggerURLParser.get_api_docs` (parsers.py lines 208-225) applied to
the response obtained for `schema_url`: a non-200 status aborts with a
message carrying the status and the URL; a non-JSON body aborts with a
parse message carrying the URL. -/
def SwaggerURLParser.get_api_docs (st : SwaggerURLParserState)
    (resp : HttpResponse) : Except String JValue :=
  if resp.status ≠ 200 then
    .error ("[HTTP " ++ toString resp.status ++ "] Could not access " ++ st.schema_url)
  else
    match resp.body with
    | .ok d => .ok d
    | .error _ => .error ("Could not load properly json from " ++ st.schema_url)

/-- Outcome of one `requests.get` call: an SSL handshake failure, some
other transport exception, or an HTTP response. -/
inductive ReqResult where
  | sslError : ReqResult
  | otherError : String → ReqResult
  | response : HttpResponse → ReqResult

/-- Status check and JSON decoding of a received response
(parsers.py lines 236-245). -/
def handleSwaggerResponse (path resource_name : String) (r : HttpResponse) :
    Except String JValue :=
  if r.status ≠ 200 then
    .error ("[HTTP " ++ toString r.status ++ "] An error occured while retrieving "
      ++ resource_name ++ " at " ++ path)
  else
    match r.body with
    | .ok d => .ok d
    | .error _ => .error ("Could not load properly json from " ++ path)

/-- `SwaggerURLParser.get_swagger_model` (parsers.py lines 227-245) run
against a stream of request outcomes (`oracle n` is the outcome of the
n-th `requests.get` issued for this fetch).  Only an `SSLError` from the
first request is caught, and exactly one further request is made; the
second component counts the requests issued. -/
def SwaggerURLParser.get_swagger_model (path resource_name : String)
    (oracle : Nat → ReqResult) : Except String JValue × Nat :=
  match oracle 0 with
  | .sslError =>
    (match oracle 1 with
     | .sslError => (.error "requests.exceptions.SSLError", 2)
     | .otherError m => (.error m, 2)
     | .response r => (handleSwaggerResponse path resource_name r, 2))
  | .otherError m => (.error m, 1)
  | .response r => (handleSwaggerResponse path resource_name r, 1)

/-- The per-resource path computation loop of `grab_all` (parsers.py lines
122-124): `self.path_for_swagger_model(api[SWAGGER_PATH])` for each entry,
in order.  Relative paths must be strings. -/
def computeTaskPaths (pathFor : String → String) : List JValue → Except String (List String)
  | [] => .ok []
  | api :: rest => do
    let pv ← api.getField "path"
    match pv with
    | .jstr s => do
      let tail ← computeTaskPaths pathFor rest
      .ok (pathFor s :: tail)
    | _ => .error "TypeError: path entry is not a string"

/-- One run of the started tasks over the shared results dictionary.
Modelled from the spec: `TaskManager` (whose file is not among the
sources) runs every task to completion and `wait_until_exit` surfaces the
first failure once all have finished; writes are per-key, so the runs are
folded in task start order.  Returns the surfaced result and the list of
task paths that ran. -/
def runTasks (getInfo : String → Except String (String × String))
    (fetch : String → String → Except String JValue) :
    List String → ResultsMap → Option String → Except String ResultsMap × List String
  | [], m, firstErr =>
    (match firstErr with
     | some e => .error e
     | none => .ok m, [])
  | p :: rest, m, firstErr =>
    match grabResource getInfo fetch p m with
    | .ok m2 =>
      let r := runTasks getInfo fetch rest m2 firstErr
      (r.1, p :: r.2)
    | .error e =>
      let keep := match firstErr with
        | some e0 => some e0
        | none => some e
      let r := runTasks getInfo fetch rest m keep
      (r.1, p :: r.2)

/-- `AbstractSwaggerParser.grab_all` (parsers.py lines 94-128), traced:
takes the outcome of `get_api_docs`, the version supplied at construction,
the Version Resolver, and the transport capabilities; returns the
discovery outcome together with the list of per-resource task paths that
were started.  Structural checks on `apis` and `apiVersion` come first;
the version is resolved at most once, before any task starts.
Modelled from the spec: `Utils.get_version` (whose file is not among the
sources) is the Version Resolver, passed here as the `getVersion`
argument; `Printer.raiseError` aborts with its message. -/
def grabAllTraced (apiDocs : Except String JValue) (apiversion0 : Option String)
    (getVersion : JValue → String)
    (pathFor : Option String → String → String)
    (getInfo : String → Except String (String × String))
    (fetch : String → String → Except String JValue) :
    Except String ResultsMap × List String :=
  match apiDocs with
  | .error e => (.error e, [])
  | .ok data =>
    match pyContains "apis" data with
    | .error e => (.error e, [])
    | .ok false => (.error "No apis information found in api-docs", [])
    | .ok true =>
      match pyContains "apiVersion" data with
      | .error e => (.error e, [])
      | .ok false => (.error "No api version found in api-docs", [])
      | .ok true =>
        let vres : Except String (Option String) :=
          match apiversion0 with
          | some v => .ok (some v)
          | none =>
            match data.getField "apiVersion" with
            | .ok av => .ok (some (getVersion av))
            | .error e => .error e
        match vres with
        | .error e => (.error e, [])
        | .ok v =>
          match (do
            let apisV ← data.getField "apis"
            let apisL ← pyIter apisV
            computeTaskPaths (pathFor v) apisL : Except String (List String)) with
          | .error e => (.error e, [])
          | .ok paths => runTasks getInfo fetch paths [] none

/-- Whether an `Except` computation succeeded. -/
def exceptIsOk {α : Type} (e : Except String α) : Bool :=
  match e with
  | .ok _ => true
  | .error _ => false

/-- Drop the error of an `Except` computation. -/
def exceptToOption {α : Type} (e : Except String α) : Option α :=
  match e with
  | .ok a => some a
  | .error _ => none

/-- Value of a successful Python membership test, `false` when the test
would raise. -/
def pyInB (needle : String) (v : JValue) : Bool :=
  match pyContains needle v with
  | .ok b => b
  | .error _ => false

/-- Routing predicate of the Metadata partition: the entry's path contains
the aggregate marker. -/
def apiToAggregate (api : JValue) : Bool :=
  match api.getField "path" with
  | .ok pv => pyInB "/aggregatemetadatas" pv
  | .error _ => false

/-- Routing predicate: the aggregate test failed and the path contains the
global marker. -/
def apiToGlobal (api : JValue) : Bool :=
  match api.getField "path" with
  | .ok pv => !(pyInB "/aggregatemetadatas" pv) && pyInB "/globalmetadatas" pv
  | .error _ => false

/-- Routing predicate: neither marker matched, the entry stays with
Metadata. -/
def apiToMetadata (api : JValue) : Bool :=
  match api.getField "path" with
  | .ok pv => !(pyInB "/aggregatemetadatas" pv) && !(pyInB "/globalmetadatas" pv)
  | .error _ => false

/-- A minimal apis entry with the given path, for concrete runs. -/
def apiEntry (p : String) : JValue := .jobj [("path", .jstr p)]

/-- A concrete Metadata resource document with one entry per partition
class, mirroring the example of the specification. -/
def infos0 : JValue := .jobj
  [("models", .jobj [("Metadata", .jobj [("id", .jstr "Metadata-orig")])]),
   ("apis", .jarr [apiEntry "/v1/aggregatemetadatas", apiEntry "/v1/globalmetadatas",
     apiEntry "/v1/other"])]

/-- The result map produced by the Metadata split of `infos0` with package
"/v1" on an empty map. -/
def res0 : ResultsMap :=
  [("Metadata", .jobj
     [("models", .jobj [("Metadata", .jobj [("id", .jstr "Metadata")])]),
      ("apis", .jarr [apiEntry "/v1/other"]),
      ("package", .jstr "/v1")]),
   ("GlobalMetadata", .jobj
     [("models", .jobj [("Metadata", .jobj [("id", .jstr "GlobalMetadata")])]),
      ("apis", .jarr [apiEntry "/v1/globalmetadatas"]),
      ("package", .jstr "/v1")]),
   ("AggregateMetadata", .jobj
     [("models", .jobj [("Metadata", .jobj [("id", .jstr "AggregateMetadata")])]),
      ("apis", .jarr [apiEntry "/v1/aggregatemetadatas"]),
      ("package", .jstr "/v1")])]

/-- A concrete ordinary (non-Metadata) resource document. -/
def docFoo : JValue := .jobj [("models", .jobj []), ("apis", .jarr [])]

/-- `docFoo` with its package annotation. -/
def docFooPkg : JValue :=
  .jobj [("models", .jobj []), ("apis", .jarr []), ("package", .jstr "/v1")]

/-- The map produced by grabbing `docFoo` as resource "foo". -/
def resFoo : ResultsMap := [("foo", docFooPkg)]

/-- The `get_information` capability of a file parser rooted at "/x". -/
def fileGetInfoX : String → Except String (String × String) :=
  SwaggerFileParser.get_information (SwaggerFileParser.init "/x" none)

/-- A fetch capability that always returns `docFoo`. -/
def fetchFoo : String → String → Except String JValue := fun _ _ => .ok docFoo

/-- A fetched document whose shape satisfies the claim's stated
precondition for the Metadata split except that its apis value is a string
rather than a sequence: iterating the empty string performs no loop
iterations, so the split nevertheless completes. -/
def infosApisStr : JValue := .jobj
  [("models", .jobj [("Metadata", .jobj [("id", .jstr "x")])]),
   ("apis", .jstr "")]

/-- A fetched document with no models key at all. -/
def infosNoModels : JValue := .jobj [("apis", .jarr [])]

/-- Request outcomes: one SSL handshake failure, then a successful
response. -/
def oracleSslThenOk : Nat → ReqResult := fun n =>
  if n = 0 then .sslError else .response ⟨200, .ok .jnull⟩

/-- Request outcomes: SSL handshake failures on every attempt. -/
def oracleSslAlways : Nat → ReqResult := fun _ => .sslError

/-- Request outcomes: an immediate non-SSL transport error. -/
def oracleOtherErr : Nat → ReqResult := fun _ => .otherError "connection refused"

/-- The URL parser state built from base url "https://h/" and version
"3.0". -/
def stH : SwaggerURLParserState :=
  { url := "https://h/"
    apiversion := "3.0"
    base_path := "https://h/V3_0"
    schema_url := "https://h/V3_0/schema/api-docs" }

/-- A concrete root document holding a version and an empty apis list. -/
def rootDoc1 : JValue := .jobj [("apiVersion", .jstr "3.0"), ("apis", .jarr [])]

/-- A trivial path computation for concrete discovery runs. -/
def pathForTest : Option String → String → String := fun v p =>
  (match v with
   | some s => s
   | none => "") ++ p

/-- A version resolver for concrete discovery runs.
Modelled from the spec: `Utils.get_version` normalizes the version token;
its exact truncation policy is implementation-defined, so concrete runs
fix one interpretation. -/
def getVersionTest : JValue → String := fun j =>
  match j with
  | .jstr s => s
  | _ => ""

/-- The shape precondition on a fetched Metadata document exactly as the
claim states it: a models mapping with key Metadata (itself a mapping),
and an apis sequence whose every entry has a path field. -/
def shapeOkClaim (infos : JValue) : Bool :=
  (match infos.getField "models" with
   | .ok ms =>
     match ms.getField "Metadata" with
     | .ok (.jobj mm) => true
     | _ => false
   | .error _ => false) &&
  (match infos.getField "apis" with
   | .ok (.jarr l) => l.all fun api =>
       match api.getField "path" with
       | .ok pv => true
       | .error _ => false
   | _ => false)

/-- The shape precondition strengthened so that the split provably
completes: every apis entry's path value must moreover be a string (the
substring membership tests raise on values that support no membership
test). -/
def shapeOkStrict (infos : JValue) : Bool :=
  (match infos.getField "models" with
   | .ok ms =>
     match ms.getField "Metadata" with
     | .ok (.jobj mm) => true
     | _ => false
   | .error _ => false) &&
  (match infos.getField "apis" with
   | .ok (.jarr l) => l.all fun api =>
       match api.getField "path" with
       | .ok (.jstr s) => true
       | _ => false
   | _ => false)

/-- The models-side lookups of the split fail: no usable models mapping,
or no Metadata model supporting the id assignment. -/
def metadataModelBad (infos : JValue) : Bool :=
  match infos.getField "models" with
  | .ok ms =>
    match ms.getField "Metadata" with
    | .ok (.jobj mm) => false
    | _ => true
  | .error _ => true

/-- Some entry of an apis array lacks a path field. -/
def apisEntryPathMissing (infos : JValue) : Bool :=
  match infos.getField "apis" with
  | .ok (.jarr l) => l.any fun api => !(exceptIsOk (api.getField "path"))
  | _ => false

/-- A subscript lookup of the Metadata split itself fails on this
document: the models lookup, the Metadata model (or its id assignment),
the apis lookup, or some array entry's path lookup. -/
def lookupFails (infos : JValue) : Bool :=
  !(exceptIsOk (infos.getField "models")) || metadataModelBad infos ||
  !(exceptIsOk (infos.getField "apis")) || apisEntryPathMissing infos

theorem dictGet_dictSet_self (m : List (String × JValue)) (k : String) (v : JValue) :
    dictGet (dictSet m k v) k = some v := by
  induction m with
  | nil => simp [dictSet, dictGet]
  | cons p rest ih =>
    obtain ⟨k0, v0⟩ := p
    by_cases hk : k0 = k
    · simp [dictSet, hk, dictGet]
    · simp [dictSet, hk, dictGet, ih]

theorem dictGet_dictSet_ne (m : List (String × JValue)) (k k' : String) (v : JValue)
    (hk : k' ≠ k) : dictGet (dictSet m k v) k' = dictGet m k' := by
  have hk2 : ¬(k = k') := fun h => hk h.symm
  induction m with
  | nil => simp [dictSet, dictGet, hk2]
  | cons p rest ih =>
    obtain ⟨k0, v0⟩ := p
    by_cases h0 : k0 = k
    · subst h0
      simp [dictSet, dictGet, hk2]
    · simp [dictSet, h0, dictGet, ih]

theorem countKey_dictSet_self (m : List (String × JValue)) (k : String) (v : JValue)
    (h : countKey m k ≤ 1) : countKey (dictSet m k v) k = 1 := by
  induction m with
  | nil => simp [dictSet, countKey]
  | cons p rest ih =>
    obtain ⟨k0, v0⟩ := p
    by_cases hk : k0 = k
    · subst hk
      have hstep : countKey ((k0, v0) :: rest) k0 = countKey rest k0 + 1 := by
        simp [countKey]
      rw [hstep] at h
      have h0 : countKey rest k0 = 0 := by omega
      simp [dictSet, countKey, h0]
    · simp only [countKey, if_neg hk] at h
      simp [dictSet, hk, countKey, ih h]

theorem countKey_dictSet_ne (m : List (String × JValue)) (k k' : String) (v : JValue)
    (hk : k' ≠ k) : countKey (dictSet m k v) k' = countKey m k' := by
  have hk2 : ¬(k = k') := fun h => hk h.symm
  induction m with
  | nil => simp [dictSet, countKey, hk2]
  | cons p rest ih =>
    obtain ⟨k0, v0⟩ := p
    by_cases h0 : k0 = k
    · subst h0
      simp [dictSet, countKey, hk2]
    · simp [dictSet, h0, countKey, ih]

theorem getField_ok_obj {j : JValue} {k : String} {v : JValue}
    (h : j.getField k = .ok v) : ∃ m, j = JValue.jobj m ∧ dictGet m k = some v := by
  cases j with
  | jobj m =>
    refine ⟨m, rfl, ?_⟩
    cases h1 : dictGet m k with
    | some w => simp [JValue.getField, h1] at h; rw [h]
    | none => simp [JValue.getField, h1] at h
  | jnull => exact absurd h (by simp [JValue.getField])
  | jbool b => exact absurd h (by simp [JValue.getField])
  | jnum n => exact absurd h (by simp [JValue.getField])
  | jstr s => exact absurd h (by simp [JValue.getField])
  | jarr l => exact absurd h (by simp [JValue.getField])

theorem setField_ok_inv {j : JValue} {k : String} {v j' : JValue}
    (h : j.setField k v = .ok j') :
    ∃ m, j = JValue.jobj m ∧ j' = JValue.jobj (dictSet m k v) := by
  cases j with
  | jobj m =>
    simp only [JValue.setField, Except.ok.injEq] at h
    exact ⟨m, rfl, h.symm⟩
  | jnull => exact absurd h (by simp [JValue.setField])
  | jbool b => exact absurd h (by simp [JValue.setField])
  | jnum n => exact absurd h (by simp [JValue.setField])
  | jstr s => exact absurd h (by simp [JValue.setField])
  | jarr l => exact absurd h (by simp [JValue.setField])

theorem setField_getField_self {j : JValue} {k : String} {v j' : JValue}
    (h : j.setField k v = .ok j') : j'.getField k = .ok v := by
  obtain ⟨m, rfl, rfl⟩ := setField_ok_inv h
  simp [JValue.getField, dictGet_dictSet_self]

theorem setField_getField_ne {j : JValue} {k : String} {v j' : JValue}
    (h : j.setField k v = .ok j') {k' : String} (hk : k' ≠ k) :
    j'.getField k' = j.getField k' := by
  obtain ⟨m, rfl, rfl⟩ := setField_ok_inv h
  simp [JValue.getField, dictGet_dictSet_ne _ _ _ _ hk]

theorem setField_obj_total (m : List (String × JValue)) (k : String) (v : JValue) :
    (JValue.jobj m).setField k v = .ok (.jobj (dictSet m k v)) := rfl

theorem exceptIsOk_iff {α : Type} (e : Except String α) :
    exceptIsOk e = true ↔ ∃ a, e = .ok a := by
  cases e <;> simp [exceptIsOk]

theorem pyInB_of {needle : String} {v : JValue} {b : Bool}
    (h : pyContains needle v = .ok b) : pyInB needle v = b := by
  simp [pyInB, h]

theorem setModelsMetadataId_inv {j : JValue} {name : String} {j2 : JValue}
    (h : setModelsMetadataId j name = .ok j2) :
    ∃ models md md2 models2,
      j.getField "models" = .ok models ∧
      models.getField "Metadata" = .ok md ∧
      md.setField "id" (.jstr name) = .ok md2 ∧
      models.setField "Metadata" md2 = .ok models2 ∧
      j.setField "models" models2 = .ok j2 := by
  simp only [setModelsMetadataId, bind, Except.bind] at h
  split at h
  case _ e heq => exact absurd h (by simp)
  case _ models heq =>
    split at h
    case _ e heq2 => exact absurd h (by simp)
    case _ md heq2 =>
      split at h
      case _ e heq3 => exact absurd h (by simp)
      case _ md2 heq3 =>
        split at h
        case _ e heq4 => exact absurd h (by simp)
        case _ models2 heq4 =>
          exact ⟨models, md, md2, models2, heq, heq2, heq3, heq4, h⟩

theorem setModelsMetadataId_getId {j : JValue} {name : String} {j2 : JValue}
    (h : setModelsMetadataId j name = .ok j2) :
    getModelsMetadataId j2 = .ok (.jstr name) := by
  obtain ⟨models, md, md2, models2, h1, h2, h3, h4, h5⟩ := setModelsMetadataId_inv h
  have hm : j2.getField "models" = .ok models2 := setField_getField_self h5
  have hmd : models2.getField "Metadata" = .ok md2 := setField_getField_self h4
  have hid : md2.getField "id" = .ok (.jstr name) := setField_getField_self h3
  simp [getModelsMetadataId, bind, Except.bind, hm, hmd, hid]

theorem setModelsMetadataId_preserve {j : JValue} {name : String} {j2 : JValue}
    (h : setModelsMetadataId j name = .ok j2) {k : String} (hk : k ≠ "models") :
    j2.getField k = j.getField k := by
  obtain ⟨models, md, md2, models2, h1, h2, h3, h4, h5⟩ := setModelsMetadataId_inv h
  exact setField_getField_ne h5 hk

theorem setModelsMetadataId_ok_obj {j : JValue} {name : String} {j2 : JValue}
    (h : setModelsMetadataId j name = .ok j2) :
    ∃ m2, j2 = JValue.jobj m2 := by
  obtain ⟨models, md, md2, models2, h1, h2, h3, h4, h5⟩ := setModelsMetadataId_inv h
  obtain ⟨m, hm, hj2⟩ := setField_ok_inv h5
  exact ⟨_, hj2⟩

theorem setModelsMetadataId_total {j models : JValue} {mm : List (String × JValue)}
    (name : String)
    (h1 : j.getField "models" = .ok models)
    (h2 : models.getField "Metadata" = .ok (.jobj mm)) :
    ∃ j2, setModelsMetadataId j name = .ok j2 := by
  rw [← exceptIsOk_iff]
  obtain ⟨jm, hj, hget1⟩ := getField_ok_obj h1
  obtain ⟨mmodels, hmodels, hget2⟩ := getField_ok_obj h2
  subst hj
  subst hmodels
  simp [setModelsMetadataId, bind, Except.bind, h1, h2, JValue.setField, exceptIsOk]

theorem splitApis_filter {l : List JValue}
    {t : List JValue × List JValue × List JValue} (h : splitApis l = .ok t) :
    t.1 = l.filter apiToAggregate ∧
    t.2.1 = l.filter apiToGlobal ∧
    t.2.2 = l.filter apiToMetadata ∧
    t.1.length + t.2.1.length + t.2.2.length = l.length := by
  induction l generalizing t with
  | nil =>
    simp only [splitApis, Except.ok.injEq] at h
    subst h
    simp
  | cons api rest ih =>
    simp only [splitApis, bind, Except.bind] at h
    split at h
    case _ e heq => exact absurd h (by simp)
    case _ pv heq =>
      split at h
      case _ e heq2 => exact absurd h (by simp)
      case _ bAgg heq2 =>
        cases bAgg with
        | true =>
          rw [if_pos rfl] at h
          split at h
          case _ e heq3 => exact absurd h (by simp)
          case _ t0 heq3 =>
            simp only [Except.ok.injEq] at h
            subst h
            obtain ⟨ih1, ih2, ih3, ih4⟩ := ih heq3
            have hA : apiToAggregate api = true := by
              simp [apiToAggregate, heq, pyInB_of heq2]
            have hG : apiToGlobal api = false := by
              simp [apiToGlobal, heq, pyInB_of heq2]
            have hM : apiToMetadata api = false := by
              simp [apiToMetadata, heq, pyInB_of heq2]
            refine ⟨?_, ?_, ?_, ?_⟩
            · simp [List.filter_cons, hA, ih1]
            · simp [List.filter_cons, hG, ih2]
            · simp [List.filter_cons, hM, ih3]
            · simp only [List.length_cons]
              omega
        | false =>
          rw [if_neg (by simp)] at h
          split at h
          case _ e heq3 => exact absurd h (by simp)
          case _ bGlob heq3 =>
            split at h
            case _ e heq4 => exact absurd h (by simp)
            case _ t0 heq4 =>
              obtain ⟨ih1, ih2, ih3, ih4⟩ := ih heq4
              have hA : apiToAggregate api = false := by
                simp [apiToAggregate, heq, pyInB_of heq2]
              cases bGlob with
              | true =>
                rw [if_pos rfl] at h
                simp only [Except.ok.injEq] at h
                subst h
                have hG : apiToGlobal api = true := by
                  simp [apiToGlobal, heq, pyInB_of heq2, pyInB_of heq3]
                have hM : apiToMetadata api = false := by
                  simp [apiToMetadata, heq, pyInB_of heq2, pyInB_of heq3]
                refine ⟨?_, ?_, ?_, ?_⟩
                · simp [List.filter_cons, hA, ih1]
                · simp [List.filter_cons, hG, ih2]
                · simp [List.filter_cons, hM, ih3]
                · simp only [List.length_cons]
                  omega
              | false =>
                rw [if_neg (by simp)] at h
                simp only [Except.ok.injEq] at h
                subst h
                have hG : apiToGlobal api = false := by
                  simp [apiToGlobal, heq, pyInB_of heq2, pyInB_of heq3]
                have hM : apiToMetadata api = true := by
                  simp [apiToMetadata, heq, pyInB_of heq2, pyInB_of heq3]
                refine ⟨?_, ?_, ?_, ?_⟩
                · simp [List.filter_cons, hA, ih1]
                · simp [List.filter_cons, hG, ih2]
                · simp [List.filter_cons, hM, ih3]
                · simp only [List.length_cons]
                  omega

theorem splitApis_total {l : List JValue}
    (h : ∀ api ∈ l, ∃ s, api.getField "path" = .ok (JValue.jstr s)) :
    ∃ t, splitApis l = .ok t := by
  induction l with
  | nil => exact ⟨([], [], []), rfl⟩
  | cons api rest ih =>
    obtain ⟨s, hs⟩ := h api (List.mem_cons_self api rest)
    obtain ⟨t0, ht0⟩ := ih fun a ha => h a (List.mem_cons_of_mem _ ha)
    cases hAgg : pyStrContains s "/aggregatemetadatas" with
    | true =>
      exact ⟨(api :: t0.1, t0.2.1, t0.2.2),
        by simp [splitApis, bind, Except.bind, hs, pyContains, hAgg, ht0]⟩
    | false =>
      cases hGlob : pyStrContains s "/globalmetadatas" with
      | true =>
        exact ⟨(t0.1, api :: t0.2.1, t0.2.2),
          by simp [splitApis, bind, Except.bind, hs, pyContains, hAgg, hGlob, ht0]⟩
      | false =>
        exact ⟨(t0.1, t0.2.1, api :: t0.2.2),
          by simp [splitApis, bind, Except.bind, hs, pyContains, hAgg, hGlob, ht0]⟩

theorem splitApis_paths {l : List JValue}
    {t : List JValue × List JValue × List JValue} (h : splitApis l = .ok t) :
    ∀ api ∈ l, ∃ pv, api.getField "path" = .ok pv := by
  induction l generalizing t with
  | nil => intro a ha; cases ha
  | cons api0 rest ih =>
    simp only [splitApis, bind, Except.bind] at h
    split at h
    case _ e heq => exact absurd h (by simp)
    case _ pv heq =>
      split at h
      case _ e heq2 => exact absurd h (by simp)
      case _ bAgg heq2 =>
        intro a ha
        rcases List.mem_cons.mp ha with rfl | hmem
        · exact ⟨pv, heq⟩
        · cases bAgg with
          | true =>
            rw [if_pos rfl] at h
            split at h
            case _ e heq3 => exact absurd h (by simp)
            case _ t0 heq3 => exact ih heq3 a hmem
          | false =>
            rw [if_neg (by simp)] at h
            split at h
            case _ e heq3 => exact absurd h (by simp)
            case _ bGlob heq3 =>
              split at h
              case _ e heq4 => exact absurd h (by simp)
              case _ t0 heq4 => exact ih heq4 a hmem

theorem grabResourceProcess_metadata_inv {pkg : String} {infos : JValue}
    {results res : ResultsMap}
    (h : grabResourceProcess pkg "Metadata" infos results = .ok res) :
    ∃ i1 mi2 gi2 ai2 apisV apisL t mi3 gi3 ai3 mi4 gi4 ai4,
      infos.setField "apis" (.jarr []) = .ok i1 ∧
      setModelsMetadataId i1 "Metadata" = .ok mi2 ∧
      setModelsMetadataId i1 "GlobalMetadata" = .ok gi2 ∧
      setModelsMetadataId i1 "AggregateMetadata" = .ok ai2 ∧
      infos.getField "apis" = .ok apisV ∧
      pyIter apisV = .ok apisL ∧
      splitApis apisL = .ok t ∧
      mi2.setField "apis" (.jarr t.2.2) = .ok mi3 ∧
      gi2.setField "apis" (.jarr t.2.1) = .ok gi3 ∧
      ai2.setField "apis" (.jarr t.1) = .ok ai3 ∧
      mi3.setField "package" (.jstr pkg) = .ok mi4 ∧
      gi3.setField "package" (.jstr pkg) = .ok gi4 ∧
      ai3.setField "package" (.jstr pkg) = .ok ai4 ∧
      res = dictSet (dictSet (dictSet results "Metadata" mi4) "GlobalMetadata" gi4)
        "AggregateMetadata" ai4 := by
  unfold grabResourceProcess at h
  rw [if_pos rfl] at h
  simp only [bind, Except.bind] at h
  split at h
  case _ e heq1 => exact absurd h (by simp)
  case _ i1 heq1 =>
    simp only [] at h
    split at h
    case _ e heq2 => exact absurd h (by simp)
    case _ mi2 heq2 =>
      split at h
      case _ e heq3 => exact absurd h (by simp)
      case _ gi2 heq3 =>
        split at h
        case _ e heq4 => exact absurd h (by simp)
        case _ ai2 heq4 =>
          split at h
          case _ e heq5 => exact absurd h (by simp)
          case _ apisV heq5 =>
            split at h
            case _ e heq6 => exact absurd h (by simp)
            case _ apisL heq6 =>
              split at h
              case _ e heq7 => exact absurd h (by simp)
              case _ t heq7 =>
                split at h
                case _ e heq8 => exact absurd h (by simp)
                case _ mi3 heq8 =>
                  split at h
                  case _ e heq9 => exact absurd h (by simp)
                  case _ gi3 heq9 =>
                    split at h
                    case _ e heq10 => exact absurd h (by simp)
                    case _ ai3 heq10 =>
                      split at h
                      case _ e heq11 => exact absurd h (by simp)
                      case _ mi4 heq11 =>
                        split at h
                        case _ e heq12 => exact absurd h (by simp)
                        case _ gi4 heq12 =>
                          split at h
                          case _ e heq13 => exact absurd h (by simp)
                          case _ ai4 heq13 =>
                            simp only [Except.ok.injEq] at h
                            exact ⟨i1, mi2, gi2, ai2, apisV, apisL, t, mi3, gi3, ai3,
                              mi4, gi4, ai4, heq1, heq2, heq3, heq4, heq5, heq6, heq7,
                              heq8, heq9, heq10, heq11, heq12, heq13, h.symm⟩

theorem grabResourceProcess_other_inv {pkg rn : String} {infos : JValue}
    {results res : ResultsMap} (hrn : rn ≠ "Metadata")
    (h : grabResourceProcess pkg rn infos results = .ok res) :
    ∃ infos2, infos.setField "package" (.jstr pkg) = .ok infos2 ∧
      res = dictSet results rn infos2 := by
  unfold grabResourceProcess at h
  rw [if_neg hrn] at h
  simp only [bind, Except.bind] at h
  split at h
  case _ e heq => exact absurd h (by simp)
  case _ infos2 heq =>
    simp only [Except.ok.injEq] at h
    exact ⟨infos2, heq, h.symm⟩

theorem getModelsMetadataId_congr {j j' : JValue}
    (h : j.getField "models" = j'.getField "models") :
    getModelsMetadataId j = getModelsMetadataId j' := by
  simp only [getModelsMetadataId, bind]
  rw [h]

theorem derived_doc_facts {d2 d3 d4 : JValue} {apis : List JValue} {pkg : String}
    (h8 : d2.setField "apis" (.jarr apis) = .ok d3)
    (h11 : d3.setField "package" (.jstr pkg) = .ok d4) :
    d4.getField "apis" = .ok (.jarr apis) ∧
    d4.getField "package" = .ok (.jstr pkg) ∧
    getModelsMetadataId d4 = getModelsMetadataId d2 := by
  refine ⟨?_, setField_getField_self h11, ?_⟩
  · rw [setField_getField_ne h11 (by decide), setField_getField_self h8]
  · apply getModelsMetadataId_congr
    rw [setField_getField_ne h11 (by decide), setField_getField_ne h8 (by decide)]

theorem dictGet_metadata_triple (results : ResultsMap) (mi gi ai : JValue) :
    dictGet (dictSet (dictSet (dictSet results "Metadata" mi) "GlobalMetadata" gi)
        "AggregateMetadata" ai) "Metadata" = some mi ∧
    dictGet (dictSet (dictSet (dictSet results "Metadata" mi) "GlobalMetadata" gi)
        "AggregateMetadata" ai) "GlobalMetadata" = some gi ∧
    dictGet (dictSet (dictSet (dictSet results "Metadata" mi) "GlobalMetadata" gi)
        "AggregateMetadata" ai) "AggregateMetadata" = some ai := by
  refine ⟨?_, ?_, ?_⟩
  · rw [dictGet_dictSet_ne _ _ _ _ (by decide), dictGet_dictSet_ne _ _ _ _ (by decide),
      dictGet_dictSet_self]
  · rw [dictGet_dictSet_ne _ _ _ _ (by decide), dictGet_dictSet_self]
  · rw [dictGet_dictSet_self]

/-- Claim C1: for a resource fetched under the name "Metadata", the
original document's apis entries are partitioned exhaustively and mutually
exclusively into the three derived documents: every entry whose path
contains "/aggregatemetadatas" goes to AggregateMetadata; otherwise, if
its path contains "/globalmetadatas", it goes to GlobalMetadata; all other
entries go to Metadata (the routing predicates `apiToAggregate`,
`apiToGlobal`, `apiToMetadata` are by construction mutually exclusive and,
on entries with a path, exhaustive); for K original entries the three
derived apis lists are the three filters of the original list and their
lengths sum to exactly K, so there are no duplicates and no omissions. -/
theorem claim_c1_metadata_partition (pkg : String) (infos : JValue)
    (results res : ResultsMap) (apisL : List JValue)
    (hapis : infos.getField "apis" = .ok (.jarr apisL))
    (hrun : grabResourceProcess pkg "Metadata" infos results = .ok res) :
    (dictGet res "AggregateMetadata").map (fun d => d.getField "apis")
      = some (.ok (.jarr (apisL.filter apiToAggregate))) ∧
    (dictGet res "GlobalMetadata").map (fun d => d.getField "apis")
      = some (.ok (.jarr (apisL.filter apiToGlobal))) ∧
    (dictGet res "Metadata").map (fun d => d.getField "apis")
      = some (.ok (.jarr (apisL.filter apiToMetadata))) ∧
    (apisL.filter apiToAggregate).length + (apisL.filter apiToGlobal).length
      + (apisL.filter apiToMetadata).length = apisL.length := by
  obtain ⟨i1, mi2, gi2, ai2, aV, aL, t, mi3, gi3, ai3, mi4, gi4, ai4,
    heq1, heq2, heq3, heq4, heq5, heq6, heq7, heq8, heq9, heq10,
    heq11, heq12, heq13, hres⟩ := grabResourceProcess_metadata_inv hrun
  rw [hapis] at heq5
  injection heq5 with heq5
  subst heq5
  simp only [pyIter, Except.ok.injEq] at heq6
  subst heq6
  obtain ⟨hf1, hf2, hf3, hlen⟩ := splitApis_filter heq7
  obtain ⟨hT1, hT2, hT3⟩ := dictGet_metadata_triple results mi4 gi4 ai4
  obtain ⟨hA1, hA2, hA3⟩ := derived_doc_facts heq10 heq13
  obtain ⟨hG1, hG2, hG3⟩ := derived_doc_facts heq9 heq12
  obtain ⟨hM1, hM2, hM3⟩ := derived_doc_facts heq8 heq11
  subst hres
  refine ⟨?_, ?_, ?_, ?_⟩
  · simp only [hT3, Option.map_some']
    rw [hA1, hf1]
  · simp only [hT2, Option.map_some']
    rw [hG1, hf2]
  · simp only [hT1, Option.map_some']
    rw [hM1, hf3]
  · rw [← hf1, ← hf2, ← hf3]
    exact hlen

/-- Witness for C1 at the concrete document `infos0` whose three apis
entries hit the three partition classes. -/
theorem claim_c1_witness :
    (dictGet res0 "AggregateMetadata").map (fun d => d.getField "apis")
      = some (.ok (.jarr ([apiEntry "/v1/aggregatemetadatas", apiEntry "/v1/globalmetadatas",
          apiEntry "/v1/other"].filter apiToAggregate))) ∧
    (dictGet res0 "GlobalMetadata").map (fun d => d.getField "apis")
      = some (.ok (.jarr ([apiEntry "/v1/aggregatemetadatas", apiEntry "/v1/globalmetadatas",
          apiEntry "/v1/other"].filter apiToGlobal))) ∧
    (dictGet res0 "Metadata").map (fun d => d.getField "apis")
      = some (.ok (.jarr ([apiEntry "/v1/aggregatemetadatas", apiEntry "/v1/globalmetadatas",
          apiEntry "/v1/other"].filter apiToMetadata))) ∧
    ([apiEntry "/v1/aggregatemetadatas", apiEntry "/v1/globalmetadatas",
        apiEntry "/v1/other"].filter apiToAggregate).length
      + ([apiEntry "/v1/aggregatemetadatas", apiEntry "/v1/globalmetadatas",
          apiEntry "/v1/other"].filter apiToGlobal).length
      + ([apiEntry "/v1/aggregatemetadatas", apiEntry "/v1/globalmetadatas",
          apiEntry "/v1/other"].filter apiToMetadata).length
      = [apiEntry "/v1/aggregatemetadatas", apiEntry "/v1/globalmetadatas",
          apiEntry "/v1/other"].length :=
  claim_c1_metadata_partition "/v1" infos0 [] res0
    [apiEntry "/v1/aggregatemetadatas", apiEntry "/v1/globalmetadatas", apiEntry "/v1/other"]
    rfl rfl

/-- Claim C3: in the Metadata split, each of the three derived documents
(inserted under keys "Metadata", "GlobalMetadata", "AggregateMetadata")
has its nested models.Metadata.id field overwritten to equal its own
derived name, and all three derived documents carry the identical package
value derived from the original path (the `package` argument of
`grabResourceProcess`, which `_grab_resource` obtains from
`get_information`). -/
theorem claim_c3_models_id_and_package (pkg : String) (infos : JValue)
    (results res : ResultsMap)
    (hrun : grabResourceProcess pkg "Metadata" infos results = .ok res) :
    (dictGet res "Metadata").map getModelsMetadataId
      = some (.ok (.jstr "Metadata")) ∧
    (dictGet res "GlobalMetadata").map getModelsMetadataId
      = some (.ok (.jstr "GlobalMetadata")) ∧
    (dictGet res "AggregateMetadata").map getModelsMetadataId
      = some (.ok (.jstr "AggregateMetadata")) ∧
    (dictGet res "Metadata").map (fun d => d.getField "package")
      = some (.ok (.jstr pkg)) ∧
    (dictGet res "GlobalMetadata").map (fun d => d.getField "package")
      = some (.ok (.jstr pkg)) ∧
    (dictGet res "AggregateMetadata").map (fun d => d.getField "package")
      = some (.ok (.jstr pkg)) := by
  obtain ⟨i1, mi2, gi2, ai2, aV, aL, t, mi3, gi3, ai3, mi4, gi4, ai4,
    heq1, heq2, heq3, heq4, heq5, heq6, heq7, heq8, heq9, heq10,
    heq11, heq12, heq13, hres⟩ := grabResourceProcess_metadata_inv hrun
  obtain ⟨hT1, hT2, hT3⟩ := dictGet_metadata_triple results mi4 gi4 ai4
  obtain ⟨hA1, hA2, hA3⟩ := derived_doc_facts heq10 heq13
  obtain ⟨hG1, hG2, hG3⟩ := derived_doc_facts heq9 heq12
  obtain ⟨hM1, hM2, hM3⟩ := derived_doc_facts heq8 heq11
  subst hres
  refine ⟨?_, ?_, ?_, ?_, ?_, ?_⟩
  · simp only [hT1, Option.map_some']
    rw [hM3, setModelsMetadataId_getId heq2]
  · simp only [hT2, Option.map_some']
    rw [hG3, setModelsMetadataId_getId heq3]
  · simp only [hT3, Option.map_some']
    rw [hA3, setModelsMetadataId_getId heq4]
  · simp only [hT1, Option.map_some']
    rw [hM2]
  · simp only [hT2, Option.map_some']
    rw [hG2]
  · simp only [hT3, Option.map_some']
    rw [hA2]

/-- Witness for C3 at the concrete run on `infos0`. -/
theorem claim_c3_witness :
    (dictGet res0 "Metadata").map getModelsMetadataId
      = some (.ok (.jstr "Metadata")) ∧
    (dictGet res0 "GlobalMetadata").map getModelsMetadataId
      = some (.ok (.jstr "GlobalMetadata")) ∧
    (dictGet res0 "AggregateMetadata").map getModelsMetadataId
      = some (.ok (.jstr "AggregateMetadata")) ∧
    (dictGet res0 "Metadata").map (fun d => d.getField "package")
      = some (.ok (.jstr "/v1")) ∧
    (dictGet res0 "GlobalMetadata").map (fun d => d.getField "package")
      = some (.ok (.jstr "/v1")) ∧
    (dictGet res0 "AggregateMetadata").map (fun d => d.getField "package")
      = some (.ok (.jstr "/v1")) :=
  claim_c3_models_id_and_package "/v1" infos0 [] res0 rfl

/-- Claim C2: for every resource whose derived resource name is not
"Metadata", a successful `_grab_resource` leaves in the map exactly one
entry under that name, and that entry is the fetched resource document
with its package field set to the package that `get_information` derived
from the fetch path. -/
theorem claim_c2_single_entry
    (getInfo : String → Except String (String × String))
    (fetch : String → String → Except String JValue)
    (path pkg rname : String) (infos : JValue) (results res : ResultsMap)
    (h1 : getInfo path = .ok (pkg, rname))
    (h2 : rname ≠ "Metadata")
    (h3 : fetch path rname = .ok infos)
    (h4 : grabResource getInfo fetch path results = .ok res)
    (h5 : countKey results rname ≤ 1) :
    dictGet res rname = exceptToOption (infos.setField "package" (.jstr pkg)) ∧
    countKey res rname = 1 := by
  simp only [grabResource, bind, Except.bind, h1] at h4
  simp only [h3] at h4
  obtain ⟨infos2, hset, hres⟩ := grabResourceProcess_other_inv h2 h4
  subst hres
  constructor
  · rw [dictGet_dictSet_self, hset]
    rfl
  · exact countKey_dictSet_self _ _ _ h5

/-- Witness for C2: the file transport rooted at "/x" grabbing resource
"foo" from the computed path "/x/v1/foo". -/
theorem claim_c2_witness :
    dictGet resFoo "foo" = exceptToOption (docFoo.setField "package" (.jstr "/v1")) ∧
    countKey resFoo "foo" = 1 :=
  claim_c2_single_entry fileGetInfoX fetchFoo "/x/v1/foo" "/v1" "foo" docFoo [] resFoo
    rfl (by decide) rfl rfl (by decide)

/-- Claim C5: for the local transport with root path "/x" and ApiEntry
path "/v1/foo", path_for_swagger_model returns exactly "/x/v1/foo" plus
the configured extension (the empty string), and get_information applied
to that computed path returns the pair ("/v1", "foo"): get_information
reproduces the exact split points used by path_for_swagger_model. -/
theorem claim_c5_local_roundtrip :
    SwaggerFileParser.path_for_swagger_model (SwaggerFileParser.init "/x" none) "/v1/foo"
      = "/x/v1/foo" ∧
    (SwaggerFileParser.init "/x" none).extension = "" ∧
    SwaggerFileParser.get_information (SwaggerFileParser.init "/x" none)
      (SwaggerFileParser.path_for_swagger_model (SwaggerFileParser.init "/x" none) "/v1/foo")
      = .ok ("/v1", "foo") :=
  ⟨rfl, rfl, rfl⟩

/-- Claim C9: constructing the remote transport without an API version
fails with the configuration error instructing the caller to supply one
with the -v option, while the local transport's constructor is total (it
succeeds for every input) and keeps a missing version unconstrained. -/
theorem claim_c9_construction (u p : String) (av : Option String) :
    SwaggerURLParser.init u none
      = .error "Please specify your apiversion using -v option" ∧
    (SwaggerFileParser.init p none).apiversion = none ∧
    (SwaggerFileParser.init p none).path = p ∧
    (SwaggerFileParser.init p av).schema_path = p ++ ENTRY_POINT := by
  refine ⟨rfl, rfl, rfl, ?_⟩
  simp [SwaggerFileParser.init]

/-- Claim C7: the remote per-resource fetch retries exactly once,
transparently, on an SSL handshake failure: a first SSL failure followed
by a successful response yields the success (with exactly two requests
issued); a second SSL failure, or any non-SSL transport error, is
surfaced without further retry; in every case at most two requests are
issued. -/
theorem claim_c7_ssl_retry (path rname : String) (oracle : Nat → ReqResult)
    (r : HttpResponse) (d : JValue) (m : String) :
    (oracle 0 = .sslError → oracle 1 = .response r → r.status = 200 → r.body = .ok d →
      SwaggerURLParser.get_swagger_model path rname oracle = (.ok d, 2)) ∧
    (oracle 0 = .sslError → oracle 1 = .sslError →
      SwaggerURLParser.get_swagger_model path rname oracle
        = (.error "requests.exceptions.SSLError", 2)) ∧
    (oracle 0 = .otherError m →
      SwaggerURLParser.get_swagger_model path rname oracle = (.error m, 1)) ∧
    (SwaggerURLParser.get_swagger_model path rname oracle).2 ≤ 2 := by
  refine ⟨?_, ?_, ?_, ?_⟩
  · intro h0 h1 hs hb
    simp [SwaggerURLParser.get_swagger_model, h0, h1, handleSwaggerResponse, hs, hb]
  · intro h0 h1
    simp [SwaggerURLParser.get_swagger_model, h0, h1]
  · intro h0
    simp [SwaggerURLParser.get_swagger_model, h0]
  · rcases h0 : oracle 0 with _ | m0 | r0
    · rcases h1 : oracle 1 with _ | m1 | r1 <;>
        simp [SwaggerURLParser.get_swagger_model, h0, h1]
    · simp [SwaggerURLParser.get_swagger_model, h0]
    · simp [SwaggerURLParser.get_swagger_model, h0]

/-- Witness for C7 at three concrete request-outcome streams. -/
theorem claim_c7_witness :
    SwaggerURLParser.get_swagger_model "/p" "R" oracleSslThenOk = (.ok .jnull, 2) ∧
    SwaggerURLParser.get_swagger_model "/p" "R" oracleSslAlways
      = (.error "requests.exceptions.SSLError", 2) ∧
    SwaggerURLParser.get_swagger_model "/p" "R" oracleOtherErr
      = (.error "connection refused", 1) :=
  ⟨(claim_c7_ssl_retry "/p" "R" oracleSslThenOk ⟨200, .ok .jnull⟩ .jnull "x").1
      rfl rfl rfl rfl,
   (claim_c7_ssl_retry "/p" "R" oracleSslAlways ⟨200, .ok .jnull⟩ .jnull "x").2.1 rfl rfl,
   (claim_c7_ssl_retry "/p" "R" oracleOtherErr ⟨200, .ok .jnull⟩ .jnull
      "connection refused").2.2.1 rfl⟩

theorem grabAllTraced_error (e : String) (apiversion0 : Option String)
    (getVersion : JValue → String) (pathFor : Option String → String → String)
    (getInfo : String → Except String (String × String))
    (fetch : String → String → Except String JValue) :
    grabAllTraced (.error e) apiversion0 getVersion pathFor getInfo fetch
      = (.error e, []) := rfl

/-- Claim C4: for every root document missing the "apis" key or the
"apiVersion" key, discovery fails with the structural error before any
per-resource fetch is attempted — the task trace is empty, so zero
per-resource fetch calls occur — and no result map is returned, for every
transport capability and version argument. -/
theorem claim_c4_structural_checks (data : JValue) (apiversion0 : Option String)
    (getVersion : JValue → String) (pathFor : Option String → String → String)
    (getInfo : String → Except String (String × String))
    (fetch : String → String → Except String JValue) :
    (pyContains "apis" data = .ok false →
      grabAllTraced (.ok data) apiversion0 getVersion pathFor getInfo fetch
        = (.error "No apis information found in api-docs", [])) ∧
    (pyContains "apis" data = .ok true → pyContains "apiVersion" data = .ok false →
      grabAllTraced (.ok data) apiversion0 getVersion pathFor getInfo fetch
        = (.error "No api version found in api-docs", [])) := by
  constructor
  · intro h
    simp [grabAllTraced, h]
  · intro h1 h2
    simp [grabAllTraced, h1, h2]

/-- Witness for C4 at the empty root document, which lacks both keys. -/
theorem claim_c4_witness :
    grabAllTraced (.ok (.jobj [])) none getVersionTest pathForTest fileGetInfoX fetchFoo
      = (.error "No apis information found in api-docs", []) :=
  (claim_c4_structural_checks (.jobj []) none getVersionTest pathForTest
    fileGetInfoX fetchFoo).1 rfl

/-- Claim C6: when the caller supplied an explicit version, the Version
Resolver is bypassed — the whole run is independent of it — and the
supplied value is authoritative: every per-resource task path is computed
by the path computation applied to that version, fixed for the whole run;
when no explicit version was supplied, a version is resolved once from
the root document's apiVersion and the run coincides with one in which
that resolved version had been supplied explicitly, so the resolved
version is used for every per-resource path computation without being
re-resolved per resource. -/
theorem claim_c6_version_resolution (apiDocs : Except String JValue)
    (data av : JValue) (v : String) (g g1 g2 : JValue → String)
    (pathFor : Option String → String → String)
    (getInfo : String → Except String (String × String))
    (fetch : String → String → Except String JValue)
    (apisV : JValue) (apisL : List JValue) (paths : List String) :
    (grabAllTraced apiDocs (some v) g1 pathFor getInfo fetch
      = grabAllTraced apiDocs (some v) g2 pathFor getInfo fetch) ∧
    (pyContains "apis" data = .ok true → pyContains "apiVersion" data = .ok true →
      data.getField "apis" = .ok apisV → pyIter apisV = .ok apisL →
      computeTaskPaths (pathFor (some v)) apisL = .ok paths →
      grabAllTraced (.ok data) (some v) g pathFor getInfo fetch
        = runTasks getInfo fetch paths [] none) ∧
    (data.getField "apiVersion" = .ok av →
      grabAllTraced (.ok data) none g pathFor getInfo fetch
        = grabAllTraced (.ok data) (some (g av)) g pathFor getInfo fetch) := by
  refine ⟨?_, ?_, ?_⟩
  · cases apiDocs with
    | error e => rfl
    | ok d =>
      cases h1 : pyContains "apis" d with
      | error e => simp [grabAllTraced, h1]
      | ok b1 =>
        cases b1 with
        | false => simp [grabAllTraced, h1]
        | true =>
          cases h2 : pyContains "apiVersion" d with
          | error e => simp [grabAllTraced, h1, h2]
          | ok b2 => cases b2 <;> simp [grabAllTraced, h1, h2]
  · intro h1 h2 h3 h4 h5
    simp [grabAllTraced, h1, h2, h3, h4, h5, bind, Except.bind]
  · intro h
    simp [grabAllTraced, h]

/-- Witness for C6 at the concrete root document `rootDoc1`. -/
theorem claim_c6_witness :
    (grabAllTraced (.ok rootDoc1) (some "3.0") getVersionTest pathForTest
        fileGetInfoX fetchFoo
      = grabAllTraced (.ok rootDoc1) (some "3.0") (fun _ => "other") pathForTest
        fileGetInfoX fetchFoo) ∧
    (grabAllTraced (.ok rootDoc1) (some "3.0") getVersionTest pathForTest
        fileGetInfoX fetchFoo
      = runTasks fileGetInfoX fetchFoo [] [] none) ∧
    (grabAllTraced (.ok rootDoc1) none getVersionTest pathForTest fileGetInfoX fetchFoo
      = grabAllTraced (.ok rootDoc1) (some (getVersionTest (.jstr "3.0"))) getVersionTest
        pathForTest fileGetInfoX fetchFoo) := by
  have h := claim_c6_version_resolution (.ok rootDoc1) rootDoc1 (.jstr "3.0") "3.0"
    getVersionTest getVersionTest (fun _ => "other") pathForTest fileGetInfoX fetchFoo
    (.jarr []) [] []
  exact ⟨h.1, h.2.1 rfl rfl rfl rfl rfl, h.2.2 rfl⟩

/-- Claim C8 (amended): for a remote discovery with base url u and
version v, the root document URL is exactly u concatenated directly with
"V", the version with each dot replaced by an underscore, and
"/schema/api-docs" — no separator slash is inserted between the base url
and the version segment; any response status other than 200 aborts
discovery with an error carrying the HTTP status and that URL, and no
per-resource task is started. -/
theorem claim_c8_root_url_and_abort (u v : String) (st : SwaggerURLParserState)
    (hinit : SwaggerURLParser.init u (some v) = .ok st)
    (resp : HttpResponse) (hs : resp.status ≠ 200)
    (apiversion0 : Option String) (getVersion : JValue → String)
    (pathFor : Option String → String → String)
    (getInfo : String → Except String (String × String))
    (fetch : String → String → Except String JValue) :
    st.schema_url = u ++ "V" ++ underscoreDots v ++ "/schema" ++ "/api-docs" ∧
    SwaggerURLParser.get_api_docs st resp
      = .error ("[HTTP " ++ toString resp.status ++ "] Could not access "
          ++ st.schema_url) ∧
    grabAllTraced (SwaggerURLParser.get_api_docs st resp) apiversion0 getVersion
        pathFor getInfo fetch
      = (.error ("[HTTP " ++ toString resp.status ++ "] Could not access "
          ++ st.schema_url), []) := by
  have hst : st =
      { url := u, apiversion := v, base_path := u ++ "V" ++ underscoreDots v,
        schema_url := u ++ "V" ++ underscoreDots v ++ SCHEMA_FILEPATH ++ ENTRY_POINT } := by
    simp only [SwaggerURLParser.init, Except.ok.injEq] at hinit
    exact hinit.symm
  subst hst
  have hdocs : SwaggerURLParser.get_api_docs
      { url := u, apiversion := v, base_path := u ++ "V" ++ underscoreDots v,
        schema_url := u ++ "V" ++ underscoreDots v ++ SCHEMA_FILEPATH ++ ENTRY_POINT } resp
      = .error ("[HTTP " ++ toString resp.status ++ "] Could not access "
          ++ (u ++ "V" ++ underscoreDots v ++ SCHEMA_FILEPATH ++ ENTRY_POINT)) := by
    simp [SwaggerURLParser.get_api_docs, hs]
  exact ⟨rfl, hdocs, by rw [hdocs, grabAllTraced_error]⟩

/-- Counterexample to C8 as stated: with base url "https://h/" and
version "3.0" the code requests "https://h/V3_0/schema/api-docs", which
differs from the claimed formula u ++ "/V" ++ v-underscored ++
"/schema/api-docs" (that formula yields "https://h//V3_0/schema/api-docs"
here): the code inserts no slash between the base url and the version
segment. -/
theorem claim_c8_counterexample :
    SwaggerURLParser.init "https://h/" (some "3.0") = .ok stH ∧
    stH.schema_url = "https://h/V3_0/schema/api-docs" ∧
    (stH.schema_url
      == "https://h/" ++ "/V" ++ underscoreDots "3.0" ++ "/schema/api-docs") = false :=
  ⟨rfl, rfl, rfl⟩

/-- Witness for C8 (amended) at base url "https://h/", version "3.0" and
an HTTP 404 response. -/
theorem claim_c8_witness :
    stH.schema_url = "https://h/" ++ "V" ++ underscoreDots "3.0" ++ "/schema" ++ "/api-docs" ∧
    SwaggerURLParser.get_api_docs stH ⟨404, .ok .jnull⟩
      = .error ("[HTTP " ++ toString (404 : Nat) ++ "] Could not access "
          ++ stH.schema_url) ∧
    grabAllTraced (SwaggerURLParser.get_api_docs stH ⟨404, .ok .jnull⟩) none
        getVersionTest pathForTest fileGetInfoX fetchFoo
      = (.error ("[HTTP " ++ toString (404 : Nat) ++ "] Could not access "
          ++ stH.schema_url), []) :=
  claim_c8_root_url_and_abort "https://h/" "3.0" stH rfl ⟨404, .ok .jnull⟩ (by decide)
    none getVersionTest pathForTest fileGetInfoX fetchFoo

theorem shapeOkStrict_spec {infos : JValue} (h : shapeOkStrict infos = true) :
    ∃ models mm l, infos.getField "models" = .ok models ∧
      models.getField "Metadata" = .ok (.jobj mm) ∧
      infos.getField "apis" = .ok (.jarr l) ∧
      ∀ api ∈ l, ∃ s, api.getField "path" = .ok (.jstr s) := by
  unfold shapeOkStrict at h
  rw [Bool.and_eq_true] at h
  obtain ⟨h1, h2⟩ := h
  split at h1
  case _ ms heqm =>
    split at h1
    case _ mm heqmd =>
      split at h2
      case _ l heqa =>
        refine ⟨ms, mm, l, heqm, heqmd, heqa, ?_⟩
        intro api hmem
        have hall := List.all_eq_true.mp h2 api hmem
        split at hall
        case _ s heqp => exact ⟨s, heqp⟩
        case _ => exact absurd hall (by simp)
      case _ => exact absurd h2 (by simp)
    case _ => exact absurd h1 (by simp)
  case _ => exact absurd h1 (by simp)

/-- Claim C10 (amended): the Metadata split is well-defined under the
shape precondition strengthened to require every apis entry's path value
to be a string (`shapeOkStrict`): under it, none of the split's
operations fails and the task completes without error.  When the
precondition fails because one of the split's subscript lookups itself
fails — the models lookup, the Metadata model or its id assignment, the
apis lookup, or an apis-array entry's path — the task errors, which
aborts the whole run.  (A failed precondition alone does not force an
error: a non-sequence apis value that is still iterable, such as a
string, lets the split complete, see the counterexample.) -/
theorem claim_c10_shape_precondition (infos : JValue) (pkg : String)
    (results : ResultsMap) :
    (shapeOkStrict infos = true →
      exceptIsOk (grabResourceProcess pkg "Metadata" infos results) = true) ∧
    (lookupFails infos = true →
      exceptIsOk (grabResourceProcess pkg "Metadata" infos results) = false) := by
  constructor
  · intro hs
    obtain ⟨models, mm, l, h1, h2, h3, h4⟩ := shapeOkStrict_spec hs
    obtain ⟨im, hinfos, hget1⟩ := getField_ok_obj h1
    subst hinfos
    have hset : (JValue.jobj im).setField "apis" (.jarr [])
        = .ok (.jobj (dictSet im "apis" (.jarr []))) := rfl
    have h1a : (JValue.jobj (dictSet im "apis" (.jarr []))).getField "models"
        = .ok models := by
      rw [setField_getField_ne hset (by decide)]
      exact h1
    obtain ⟨mi2, hmi2⟩ := setModelsMetadataId_total "Metadata" h1a h2
    obtain ⟨gi2, hgi2⟩ := setModelsMetadataId_total "GlobalMetadata" h1a h2
    obtain ⟨ai2, hai2⟩ := setModelsMetadataId_total "AggregateMetadata" h1a h2
    obtain ⟨m2, hm2⟩ := setModelsMetadataId_ok_obj hmi2
    obtain ⟨g2, hg2⟩ := setModelsMetadataId_ok_obj hgi2
    obtain ⟨a2, ha2⟩ := setModelsMetadataId_ok_obj hai2
    obtain ⟨t, ht⟩ := splitApis_total h4
    subst hm2
    subst hg2
    subst ha2
    simp [grabResourceProcess, bind, Except.bind, hset, hmi2, hgi2, hai2, h3,
      pyIter, ht, JValue.setField, exceptIsOk]
  · intro hlf
    cases hp : grabResourceProcess pkg "Metadata" infos results with
    | error e => rfl
    | ok res =>
      exfalso
      obtain ⟨i1, mi2, gi2, ai2, aV, aL, t, mi3, gi3, ai3, mi4, gi4, ai4,
        heq1, heq2, heq3, heq4, heq5, heq6, heq7, heq8, heq9, heq10,
        heq11, heq12, heq13, hres⟩ := grabResourceProcess_metadata_inv hp
      obtain ⟨models, md, md2, models2, hm1, hm2, hm3, hm4, hm5⟩ :=
        setModelsMetadataId_inv heq2
      have hIM : infos.getField "models" = .ok models := by
        rw [← setField_getField_ne heq1 (by decide)]
        exact hm1
      obtain ⟨mdm, hmd, hmdset⟩ := setField_ok_inv hm3
      subst hmd
      have hpaths := splitApis_paths heq7
      have hA : exceptIsOk (infos.getField "models") = true := by
        rw [hIM]
        rfl
      have hB : metadataModelBad infos = false := by
        simp [metadataModelBad, hIM, hm2]
      have hC : exceptIsOk (infos.getField "apis") = true := by
        rw [heq5]
        rfl
      have hD : apisEntryPathMissing infos = false := by
        simp only [apisEntryPathMissing, heq5]
        cases aV with
        | jarr l2 =>
          simp only [pyIter, Except.ok.injEq] at heq6
          subst heq6
          rw [List.any_eq_false]
          intro api hmem
          obtain ⟨pv, hpv⟩ := hpaths api hmem
          simp [hpv, exceptIsOk]
        | jnull => rfl
        | jbool b => rfl
        | jnum n => rfl
        | jstr s => rfl
        | jobj m => rfl
      simp only [lookupFails, hA, hB, hC, hD] at hlf
      simp at hlf

/-- Counterexample to C10 as stated: `infosApisStr` has a models mapping
with a Metadata mapping inside, but its apis value is the empty string
rather than a sequence, so the claim's precondition fails; yet the task
completes without raising, because iterating the empty string simply
yields no entries — so a failed precondition does not imply an aborting
lookup error. -/
theorem claim_c10_counterexample :
    shapeOkClaim infosApisStr = false ∧
    exceptIsOk (grabResourceProcess "/v1" "Metadata" infosApisStr []) = true :=
  ⟨rfl, rfl⟩

/-- Witness for C10 (amended): the strict precondition holds of `infos0`
and that run completes; `infosNoModels` fails its models lookup and that
run errors. -/
theorem claim_c10_witness :
    (shapeOkStrict infos0 = true ∧
      exceptIsOk (grabResourceProcess "/v1" "Metadata" infos0 []) = true) ∧
    (lookupFails infosNoModels = true ∧
      exceptIsOk (grabResourceProcess "/v1" "Metadata" infosNoModels []) = false) :=
  ⟨⟨rfl, (claim_c10_shape_precondition infos0 "/v1" []).1 rfl⟩,
   ⟨rfl, (claim_c10_shape_precondition infosNoModels "/v1" []).2 rfl⟩⟩
